import Mathlib

set_option maxRecDepth 1000000

/-!
# Verification of the mimir ingestion / enrichment / retrieval pipeline

A shallow embedding, in Lean 4, of the parts of the mimir code base that the
frozen claims C1..C10 talk about:

* the primary record store (`content_store.go`, `primary.go`): content
  deduplication by SHA-256 hash, batched lookup, listing with sort whitelist,
  idempotent job-enqueue records;
* the fallback embedding service and its retry strategy;
* the ingestion orchestrator (`ContentService.AddContent`);
* the chunking engine (fallback, markdown and HTML strategies) and the
  `ContentAwareChunk` dispatcher;
* the input processor's URL branch.

Go strings are modelled as `List Char`, machine integers as `Int`/`Nat` (with
explicit wrap-around where it matters, e.g. in SHA-256), the database as
explicit lists of rows, fallible calls as `Except`/`Option`, and external
collaborators (the HTML parser, the sentence tokenizer, the LLM) as function
parameters.
-/

namespace Mimir

/-- Go strings, modelled as lists of characters. -/
abbrev Str := List Char

/-- Build a `Str` from a Lean string literal. -/
def str (s : String) : Str := s.data

/-- `unicode.IsSpace` restricted to the white-space characters that occur in
the repository's data paths (ASCII white space plus NEL and NBSP). -/
def isSpaceChar (c : Char) : Bool :=
  c = ' ' || c = '\t' || c = '\n' || c = '\r' ||
    c.toNat = 11 || c.toNat = 12 || c.toNat = 133 || c.toNat = 160

/-- Helper for `fieldsL` (Go `strings.Fields`): `acc` is the current field,
reversed. -/
def fieldsGo : Str → Str → List Str
  | [], acc => if acc.isEmpty then [] else [acc.reverse]
  | c :: rest, acc =>
    if isSpaceChar c then
      if acc.isEmpty then fieldsGo rest [] else acc.reverse :: fieldsGo rest []
    else fieldsGo rest (c :: acc)

/-- Go `strings.Fields`: the maximal runs of non-white-space characters. -/
def fieldsL (s : Str) : List Str := fieldsGo s []

/-- Go `strings.TrimSpace`. -/
def trimSpaceL (s : Str) : Str :=
  ((s.dropWhile isSpaceChar).reverse.dropWhile isSpaceChar).reverse

/-- Helper for `splitOnChar`: `acc` is the current piece, reversed. -/
def splitOnCharGo (sep : Char) : Str → Str → List Str
  | [], acc => [acc.reverse]
  | c :: rest, acc =>
    if c = sep then acc.reverse :: splitOnCharGo sep rest []
    else splitOnCharGo sep rest (c :: acc)

/-- Go `strings.Split` with a one-character separator. -/
def splitOnChar (sep : Char) (s : Str) : List Str := splitOnCharGo sep s []

/-- Boolean prefix test on character lists. -/
def isPrefixOfL : Str → Str → Bool
  | [], _ => true
  | _ :: _, [] => false
  | a :: restA, b :: restB => a = b && isPrefixOfL restA restB

/-- Helper for `splitOnSub`: splits at every leftmost, non-overlapping
occurrence of the separator `c0 :: sr`.  The `fuel` argument is initialised
with the length of the scanned list, which every step strictly decreases, so
the `fuel = 0` branch is unreachable; it keeps the recursion structural. -/
def splitOnSubGo (c0 : Char) (sr : Str) : Nat → Str → Str → List Str
  | _, [], acc => [acc.reverse]
  | 0, s, acc => [acc.reverse ++ s]
  | fuel + 1, c :: rest, acc =>
    if c = c0 && isPrefixOfL sr rest then
      acc.reverse :: splitOnSubGo c0 sr fuel (rest.drop sr.length) []
    else
      splitOnSubGo c0 sr fuel rest (c :: acc)

/-- Go `strings.Split` with a (non-empty) multi-character separator. -/
def splitOnSub (c0 : Char) (sr : Str) (s : Str) : List Str :=
  splitOnSubGo c0 sr s.length s []

/-- Go `strings.Join`. -/
def joinSep (sep : Str) : List Str → Str
  | [] => []
  | [x] => x
  | x :: rest => x ++ sep ++ joinSep sep rest

/-- Go `strings.Contains` (substring test). -/
def containsSub (s pat : Str) : Bool :=
  match s with
  | [] => isPrefixOfL pat []
  | _ :: rest => isPrefixOfL pat s || containsSub rest pat

/-- Go `strings.ToUpper` for ASCII. -/
def toUpperL (s : Str) : Str := s.map fun c => c.toUpper

/-- Go `strings.ToLower` for ASCII. -/
def toLowerL (s : Str) : Str := s.map fun c => c.toLower

/-! ## SHA-256 (`crypto/sha256`) and hex encoding (`encoding/hex`)

`content_store.go` computes `hex.EncodeToString(sha256.Sum(body))` in
`calculateHash`.  The hash is implemented here, executably, over byte lists
(`Nat` values below 256), with 32-bit words as `Nat` reduced mod `2^32`. -/

/-- Reduce to a 32-bit word. -/
def w32 (n : Nat) : Nat := n % 4294967296

/-- 32-bit right rotation. -/
def rotr32 (n x : Nat) : Nat := w32 ((x >>> n) ||| (x <<< (32 - n)))

/-- UTF-8 encoding of one character (what Go's `[]byte(s)` produces). -/
def utf8EncodeCharM (c : Char) : List Nat :=
  let n := c.toNat
  if n < 128 then [n]
  else if n < 2048 then [192 ||| (n >>> 6), 128 ||| (n &&& 63)]
  else if n < 65536 then
    [224 ||| (n >>> 12), 128 ||| ((n >>> 6) &&& 63), 128 ||| (n &&& 63)]
  else
    [240 ||| (n >>> 18), 128 ||| ((n >>> 12) &&& 63),
      128 ||| ((n >>> 6) &&& 63), 128 ||| (n &&& 63)]

/-- Go `[]byte(s)`: the UTF-8 bytes of a string. -/
def utf8Bytes (s : Str) : List Nat := (s.map utf8EncodeCharM).flatten

/-- The SHA-256 round constants (decimal). -/
def sha256K : List Nat :=
  [1116352408, 1899447441, 3049323471, 3921009573, 961987163,
   1508970993, 2453635748, 2870763221, 3624381080, 310598401,
   607225278, 1426881987, 1925078388, 2162078206, 2614888103,
   3248222580, 3835390401, 4022224774, 264347078, 604807628,
   770255983, 1249150122, 1555081692, 1996064986, 2554220882,
   2821834349, 2952996808, 3210313671, 3336571891, 3584528711,
   113926993, 338241895, 666307205, 773529912, 1294757372,
   1396182291, 1695183700, 1986661051, 2177026350, 2456956037,
   2730485921, 2820302411, 3259730800, 3345764771, 3516065817,
   3600352804, 4094571909, 275423344, 430227734, 506948616,
   659060556, 883997877, 958139571, 1322822218, 1537002063,
   1747873779, 1955562222, 2024104815, 2227730452, 2361852424,
   2428436474, 2756734187, 3204031479, 3329325298]

/-- The SHA-256 initial hash value (decimal). -/
def sha256H0 : List Nat :=
  [1779033703, 3144134277, 1013904242,
   2773480762, 1359893119, 2600822924,
   528734635, 1541459225]

/-- SHA-256 padding: append `0x80`, zeros, and the 64-bit big-endian bit
length, to a multiple of 64 bytes. -/
def sha256Pad (msg : List Nat) : List Nat :=
  let len := msg.length
  let bitLen := 8 * len
  let zeros := (64 + 55 - len % 64) % 64
  msg ++ [128] ++ List.replicate zeros 0 ++
    [w32 (bitLen >>> 56) % 256, (bitLen >>> 48) % 256, (bitLen >>> 40) % 256,
     (bitLen >>> 32) % 256, (bitLen >>> 24) % 256, (bitLen >>> 16) % 256,
     (bitLen >>> 8) % 256, bitLen % 256]

/-- Split a byte list into 64-byte blocks (`fuel`-guarded structural
recursion; the fuel is initialised with the list length, which suffices). -/
def chunk64 : Nat → List Nat → List (List Nat)
  | _, [] => []
  | 0, l => [l]
  | fuel + 1, l => l.take 64 :: chunk64 fuel (l.drop 64)

/-- Big-endian 32-bit words from bytes. -/
def bytesToWords : List Nat → List Nat
  | b0 :: b1 :: b2 :: b3 :: rest =>
    (((b0 <<< 8 ||| b1) <<< 8 ||| b2) <<< 8 ||| b3) :: bytesToWords rest
  | _ => []

/-- Extend the 16 message words to 64 (the message schedule). -/
def sha256Extend (acc : List Nat) : Nat → List Nat
  | 0 => acc
  | n + 1 =>
    let t := acc.length
    let w15 := acc.getD (t - 15) 0
    let w2 := acc.getD (t - 2) 0
    let s0 := (rotr32 7 w15) ^^^ (rotr32 18 w15) ^^^ (w15 >>> 3)
    let s1 := (rotr32 17 w2) ^^^ (rotr32 19 w2) ^^^ (w2 >>> 10)
    sha256Extend (acc ++ [w32 (acc.getD (t - 16) 0 + s0 + acc.getD (t - 7) 0 + s1)]) n

/-- One SHA-256 compression round. -/
def sha256Round (st : List Nat) (k : Nat) (w : Nat) : List Nat :=
  let a := st.getD 0 0
  let b := st.getD 1 0
  let c := st.getD 2 0
  let d := st.getD 3 0
  let e := st.getD 4 0
  let f := st.getD 5 0
  let g := st.getD 6 0
  let h := st.getD 7 0
  let s1 := (rotr32 6 e) ^^^ (rotr32 11 e) ^^^ (rotr32 25 e)
  let ch := (e &&& f) ^^^ ((w32 (4294967295 - e)) &&& g)
  let temp1 := w32 (h + s1 + ch + k + w)
  let s0 := (rotr32 2 a) ^^^ (rotr32 13 a) ^^^ (rotr32 22 a)
  let maj := (a &&& b) ^^^ (a &&& c) ^^^ (b &&& c)
  let temp2 := w32 (s0 + maj)
  [w32 (temp1 + temp2), a, b, c, w32 (d + temp1), e, f, g]

/-- Compress one 64-byte block into the running hash state. -/
def sha256Block (st : List Nat) (blockBytes : List Nat) : List Nat :=
  let ws := sha256Extend (bytesToWords blockBytes) 48
  let final := (sha256K.zip ws).foldl (fun s kw => sha256Round s kw.1 kw.2) st
  (st.zip final).map fun p => w32 (p.1 + p.2)

/-- SHA-256 digest (32 bytes) of a byte list. -/
def sha256Digest (msg : List Nat) : List Nat :=
  let padded := sha256Pad msg
  let st := (chunk64 padded.length padded).foldl sha256Block sha256H0
  (st.map fun w => [(w >>> 24) % 256, (w >>> 16) % 256, (w >>> 8) % 256, w % 256]).flatten

/-- One lowercase hex digit. -/
def hexDigit (n : Nat) : Char :=
  if n < 10 then Char.ofNat (48 + n) else Char.ofNat (87 + n)

/-- Go `hex.EncodeToString`. -/
def hexEncode (bytes : List Nat) : Str :=
  (bytes.map fun b => [hexDigit (b / 16), hexDigit (b % 16)]).flatten

/-- `calculateHash` (content_store.go): the lowercase SHA-256 hex digest of
the body's UTF-8 bytes. -/
def calculateHash (body : Str) : Str := hexEncode (sha256Digest (utf8Bytes body))

/-! ## The primary record store (`internal/store/primary`)

The `content` table is a list of rows; the database's `UNIQUE` constraint on
`content_hash` is modelled inside `createContent`, and `RETURNING id` by
`nextContentId`.  Instants (`time.Now()`, `created_at`, ...) are `Int`
parameters. -/

/-- A row of the `content` table (`models.Content`). -/
structure Content where
  id : Int
  sourceId : Int
  title : Str
  body : Str
  contentHash : Str
  filePath : Option Str
  fileSize : Option Int
  contentType : Str
  metadata : Option (List (Str × Str))
  summary : Option Str
  isEmbedded : Bool
  embeddingId : Option Int
  createdAt : Int
  updatedAt : Int
  modifiedAt : Option Int
deriving DecidableEq, Repr

/-- Store-level errors surfaced by the primary store methods. -/
inductive StoreErr
  | duplicate
  | notFound
  | refetchMissing
deriving DecidableEq, Repr

/-- `FindContentByHash`: first row whose `content_hash` matches. -/
def findContentByHash (db : List Content) (hash : Str) : Option Content :=
  db.find? fun c => c.contentHash == hash

/-- `RETURNING id` of an insert: one more than the largest id in the table. -/
def nextContentId (db : List Content) : Int :=
  (db.foldl (fun m c => max m c.id) 0) + 1

/-- The row `CreateContent` inserts: hash recomputed from the body, metadata
defaulted to the empty object, id and instants assigned by the database. -/
def insertedContent (now : Int) (db : List Content) (c : Content) : Content :=
  { c with
    id := nextContentId db
    contentHash := calculateHash c.body
    metadata := some (c.metadata.getD [])
    createdAt := now
    updatedAt := now }

/-- `CreateContent`: recompute the hash, default the metadata, insert; the
`UNIQUE(content_hash)` constraint rejects a second row with the same hash. -/
def createContent (now : Int) (db : List Content) (c : Content) :
    Except StoreErr (Content × List Content) :=
  if db.any fun r => r.contentHash == calculateHash c.body then
    .error .duplicate
  else
    .ok (insertedContent now db c, db ++ [insertedContent now db c])

/-- `CreateContentIfNotExists`: hash, look up, insert on absence; `race` holds
the rows another process commits between the lookup and the insert (empty when
there is no concurrent writer).  Returns the resulting content, the `existed`
flag and the new table. -/
def createContentIfNotExists (now : Int) (db : List Content) (race : List Content)
    (c : Content) : Except StoreErr (Content × Bool × List Content) :=
  let hash := calculateHash c.body
  match findContentByHash db hash with
  | some existing => .ok (existing, true, db)
  | none =>
    let db2 := db ++ race
    match createContent now db2 { c with contentHash := hash } with
    | .ok (inserted, db3) => .ok (inserted, false, db3)
    | .error .duplicate =>
      match findContentByHash db2 hash with
      | some winner => .ok (winner, true, db2)
      | none => .error .refetchMissing
    | .error e => .error e

/-- Last-write-wins lookup in an association list; the model of reading a Go
map that was filled by iterating rows in order. -/
def mapLookupLast (entries : List (Int × Content)) (k : Int) : Option Content :=
  ((entries.filter fun p => p.1 == k).getLast?).map fun p => p.2

/-- `GetContentsByIDs`: empty input short-circuits without querying (the
returned flag records whether a query was issued); otherwise the matching rows
are loaded into a map keyed by id and the result is positionally aligned with
the input ids, `none` standing for the `nil` entries of absent ids. -/
def getContentsByIDs (db : List Content) (ids : List Int) :
    List (Option Content) × Bool :=
  if ids.isEmpty then ([], false)
  else
    let rows := db.filter fun c => ids.contains c.id
    let entries := rows.map fun c => (c.id, c)
    (ids.map fun i => mapLookupLast entries i, true)

/-- A row of the `tags` table (`models.Tag`). -/
structure TagRow where
  id : Int
  name : Str
  slug : Str
deriving DecidableEq, Repr

/-- The tables `ListContent` touches: `content`, `tags`, `content_tags`. -/
structure PrimaryDb where
  contents : List Content
  tags : List TagRow
  contentTags : List (Int × Int)
deriving DecidableEq, Repr

/-- The `validSortColumns` whitelist of `ListContent`. -/
def sortWhitelist : List Str :=
  [str "c.id", str "c.title", str "c.created_at", str "c.updated_at",
   str "c.modified_at"]

/-- Sort-column resolution: keys outside the whitelist fall back to
`c.created_at`. -/
def resolveSortBy (sortBy : Str) : Str :=
  if sortWhitelist.contains sortBy then sortBy else str "c.created_at"

/-- Sort-direction resolution: upper-case, default `DESC`. -/
def resolveSortOrder (sortOrder : Str) : Str :=
  let u := toUpperL sortOrder
  if u = str "ASC" || u = str "DESC" then u else str "DESC"

/-- Lexicographic order on strings (SQL text comparison for `title`). -/
def strLe : Str → Str → Bool
  | [], _ => true
  | _ :: _, [] => false
  | a :: restA, b :: restB =>
    if a = b then strLe restA restB else decide (a.toNat ≤ b.toNat)

/-- Ascending comparison on the nullable `modified_at` column (Postgres sorts
`NULL` last in ascending order). -/
def optIntLeNullsLast : Option Int → Option Int → Bool
  | none, none => true
  | none, some _ => false
  | some _, none => true
  | some a, some b => decide (a ≤ b)

/-- Ascending comparison by one whitelisted column. -/
def colLeAsc (col : Str) (a b : Content) : Bool :=
  if col = str "c.id" then decide (a.id ≤ b.id)
  else if col = str "c.title" then strLe a.title b.title
  else if col = str "c.created_at" then decide (a.createdAt ≤ b.createdAt)
  else if col = str "c.updated_at" then decide (a.updatedAt ≤ b.updatedAt)
  else optIntLeNullsLast a.modifiedAt b.modifiedAt

/-- `ORDER BY col dir`: descending is the reverse of ascending (Postgres
`DESC` flips the null placement as well). -/
def contentLe (col dir : Str) (a b : Content) : Bool :=
  if dir = str "DESC" then colLeAsc col b a else colLeAsc col a b

/-- Insert into a sorted list (helper of the `ORDER BY` model). -/
def insertLe (le : Content → Content → Bool) (x : Content) :
    List Content → List Content
  | [] => [x]
  | y :: rest => if le x y then x :: y :: rest else y :: insertLe le x rest

/-- Insertion sort: the denotation of `ORDER BY`. -/
def sortByLe (le : Content → Content → Bool) : List Content → List Content
  | [] => []
  | x :: rest => insertLe le x (sortByLe le rest)

/-- Adjacent-pairs sortedness: the observable meaning of `ORDER BY`. -/
def chainLe (le : Content → Content → Bool) : List Content → Bool
  | [] => true
  | [_] => true
  | a :: b :: rest => le a b && chainLe le (b :: rest)

/-- The tag filter of `ListContent`: the `JOIN content_tags / JOIN tags`
with `WHERE t.name IN (...)` keeps a content iff it bears at least one tag
with one of the given names (`SELECT DISTINCT` collapses the join rows). -/
def matchesTagFilter (db : PrimaryDb) (filterTags : List Str) (c : Content) : Bool :=
  db.tags.any fun t =>
    filterTags.contains t.name && db.contentTags.contains (c.id, t.id)

/-- `ListContent`: optional tag filter, whitelisted sort with defaults, and
`LIMIT`/`OFFSET` pagination with defaults 20 / 0. -/
def listContent (db : PrimaryDb) (limit offset : Int) (sortBy sortOrder : Str)
    (filterTags : List Str) : List Content :=
  let filtered :=
    if filterTags.isEmpty then db.contents
    else db.contents.filter (matchesTagFilter db filterTags)
  let col := resolveSortBy sortBy
  let dir := resolveSortOrder sortOrder
  let sorted := sortByLe (contentLe col dir) filtered
  let lim := if limit ≤ 0 then (20 : Int) else limit
  let off := if offset < 0 then (0 : Int) else offset
  (sorted.drop off.toNat).take lim.toNat

/-- A row of the `background_jobs` table. -/
structure JobRecord where
  jobId : Str
  taskType : Str
  payload : Str
  queue : Str
  status : Str
  relatedEntityType : Str
  relatedEntityId : Option Int
  createdAt : Int
  updatedAt : Int
deriving DecidableEq, Repr

/-- The parameters of `RecordJobEnqueue` (`store.JobRecordParams`). -/
structure JobRecordParams where
  jobId : Str
  taskType : Str
  payload : Option Str
  queue : Str
  status : Str
  relatedEntityType : Str
  relatedEntityId : Int
deriving DecidableEq, Repr

/-- `RecordJobEnqueue` (primary.go): insert with
`ON CONFLICT (job_id) DO NOTHING`; when the conflict suppresses the insert the
resulting `pgx.ErrNoRows` is swallowed and the call still succeeds. -/
def recordJobEnqueue (now : Int) (jobs : List JobRecord) (p : JobRecordParams) :
    List JobRecord × Except StoreErr Unit :=
  if jobs.any fun j => j.jobId == p.jobId then
    (jobs, .ok ())
  else
    let row : JobRecord :=
      { jobId := p.jobId
        taskType := p.taskType
        payload := p.payload.getD (str "{}")
        queue := p.queue
        status := p.status
        relatedEntityType := p.relatedEntityType
        relatedEntityId := if p.relatedEntityId = 0 then none else some p.relatedEntityId
        createdAt := now
        updatedAt := now }
    (jobs ++ [row], .ok ())

/-! ## Fallback embedding service (`FallbackEmbeddingService`, part_008)
and its retry strategy (`SimpleRetryStrategy`, part_009)

The claim concerns the run in which every provider fails on every attempt and
the context is never cancelled, so the provider calls and the waits are pure
bookkeeping; the loop state is the triple of mutable variables
(`ActiveProvider`, `initialProviderIndex`, `attempt`) and the loop is run on
explicit fuel, `none` meaning that the function has not returned within that
many iterations. -/

/-- `SimpleRetryStrategy.NextBackoff`: negative means "stop retrying". -/
def nextBackoff (maxAttempts baseDelayMs attempt : Int) : Int :=
  if maxAttempts ≤ 0 then -1
  else if attempt ≥ maxAttempts then -1
  else
    let backoff := baseDelayMs * (2 ^ attempt.toNat)
    if backoff > 30000 then 30000 else backoff

/-- The mutable state of `GenerateEmbedding`'s loop. -/
structure FbState where
  active : Nat
  initial : Nat
  attempt : Int
deriving DecidableEq, Repr

/-- One `GenerateEmbedding` loop, all provider calls failing: retry while the
strategy allows, otherwise advance the active index modulo the provider count,
returning the "all providers exhausted" error only when the next index equals
`initialProviderIndex` — which the code re-assigns to the new index on every
switch. -/
def fbRun (numProviders : Nat) (maxAttempts baseDelayMs : Int) :
    Nat → FbState → Option Unit
  | 0, _ => none
  | fuel + 1, st =>
    let backoff := nextBackoff maxAttempts baseDelayMs st.attempt
    if backoff < 0 then
      let next := (st.active + 1) % numProviders
      if next = st.initial then some ()
      else fbRun numProviders maxAttempts baseDelayMs fuel
        { active := next, initial := next, attempt := 0 }
    else
      fbRun numProviders maxAttempts baseDelayMs fuel
        { st with attempt := st.attempt + 1 }

/-- Entry into the loop: `initialProviderIndex` starts at the index that is
active at the start of the call, and `attempt` at 0. -/
def fbGenerateAllFail (numProviders : Nat) (maxAttempts baseDelayMs : Int)
    (activeAtCall : Nat) (fuel : Nat) : Option Unit :=
  fbRun numProviders maxAttempts baseDelayMs fuel
    { active := activeAtCall, initial := activeAtCall, attempt := 0 }

/-! ## Chunking engine (`internal/chunking`)

`Chunk.Metadata` is a JSON map with a documented closed set of keys
(chunking.go); it is modelled as a record of optional fields, a missing key
being `none`.  The sentence tokenizer used by `calculateSentenceOverlap`
(library `neurosnap/sentences`) is an external collaborator and is passed in
as a function parameter `sentOverlap`. -/

/-- `DefaultMaxTokens` (chunking.go). -/
def defaultMaxTokens : Int := 200

/-- `DefaultOverlap` (chunking.go). -/
def defaultOverlap : Int := 50

/-- The metadata map of a chunk, with its documented keys. -/
structure ChunkMeta where
  parser : Option Str := none
  chunkIndex : Option Int := none
  totalChunks : Option Int := none
  sourceHeading : Option Str := none
  sourceTags : Option (List Str) := none
  warning : Option Str := none
deriving DecidableEq, Repr

/-- A chunk: text plus provenance metadata. -/
structure Chunk where
  text : Str
  metadata : ChunkMeta
deriving DecidableEq, Repr

/-- The parameter validation performed (identically) at the top of every
chunker's `Chunk` method: default `maxTokens`, default negative overlap, then
clamp the overlap below `maxTokens`. -/
def normalizeChunkParams (maxTokens overlap : Int) : Int × Int :=
  let mt := if maxTokens ≤ 0 then defaultMaxTokens else maxTokens
  let ov := if overlap < 0 then defaultOverlap else overlap
  let ov2 := if ov ≥ mt then mt - 1 else ov
  (mt, ov2)

/-- `estimateTokens`: the number of whitespace-separated fields. -/
def estimateTokens (text : Str) : Int := (fieldsL text).length

/-- `strings.HasSuffix`. -/
def hasSuffixL (s suffix : Str) : Bool := isPrefixOfL suffix.reverse s.reverse

/-- `getOverlap` (html chunker file): the last `overlap` words of a chunk. -/
def getOverlap (text : Str) (overlap : Int) : Str :=
  let trimmed := trimSpaceL text
  if overlap ≤ 0 || trimmed.isEmpty then []
  else
    let words := fieldsL trimmed
    if (words.length : Int) ≤ overlap then trimmed
    else joinSep (str " ") (words.drop (words.length - overlap.toNat))

/-- The word-level ultimate fallback split of an over-long line (step 3 of
`FallbackChunker.Chunk`), `fuel`-guarded with the word count, which the
strictly advancing start index never exhausts. -/
def wordSplitGo (words : List Str) (maxTokens : Int) : Nat → Int → List Str
  | 0, _ => []
  | fuel + 1, startIndex =>
    if startIndex < (words.length : Int) then
      let endIndex0 := startIndex + maxTokens
      let endIndex := if endIndex0 > (words.length : Int) then (words.length : Int) else endIndex0
      joinSep (str " ") ((words.drop startIndex.toNat).take (endIndex - startIndex).toNat)
        :: wordSplitGo words maxTokens fuel endIndex
    else []

/-- Split a word list into runs of at most `maxTokens` words. -/
def wordSplit (maxTokens : Int) (words : List Str) : List Str :=
  wordSplitGo words maxTokens words.length 0

/-- Steps 1–3 of `FallbackChunker.Chunk` (and, duplicated verbatim, of the
markdown chunker's `processSection`): split a (trimmed) text into intermediate
pieces by paragraphs, then over-long paragraphs by lines, then over-long lines
by words. -/
def intermediatePieces (maxTokens : Int) (text : Str) : List Str :=
  ((splitOnSub '\n' (str "\n") text).map fun para0 =>
    let para := trimSpaceL para0
    if para.isEmpty then []
    else if estimateTokens para ≤ maxTokens then [para]
    else
      ((splitOnChar '\n' para).map fun line0 =>
        let line := trimSpaceL line0
        if line.isEmpty then []
        else if estimateTokens line ≤ maxTokens then [line]
        else wordSplit maxTokens (fieldsL line)).flatten).flatten

/-- Metadata of a finalized piece chunk: `chunk_index` plus, in the markdown
copy of the loop, `source_heading`. -/
def mkPieceMeta (heading : Option Str) (ci : Int) : ChunkMeta :=
  { chunkIndex := some ci, sourceHeading := heading }

/-- Same with the overlap-truncation `warning` key. -/
def mkPieceMetaWarn (heading : Option Str) (ci : Int) (w : Str) : ChunkMeta :=
  { chunkIndex := some ci, sourceHeading := heading, warning := some w }

/-- Step 4 of `FallbackChunker.Chunk` / the second half of the markdown
chunker's `processSection`: accumulate the intermediate pieces into final
chunks of at most `maxTokens` estimated tokens, starting each new chunk with
the sentence-based overlap of the previous one, emitting the trailing chunk at
the last piece.  Returns the emitted chunks and the final chunk index. -/
def accumPieces (sentOverlap : Str → Int → Str) (maxTokens overlap : Int)
    (heading : Option Str) (warnText : Str) :
    List Str → Str → Int → Int → List Chunk × Int
  | [], _, _, ci => ([], ci)
  | piece :: rest, currentChunk, currentTokens, ci =>
    let pieceTokens := estimateTokens piece
    let step :=
      if currentTokens > 0 && currentTokens + pieceTokens > maxTokens then
        let finalizedText := trimSpaceL currentChunk
        let out1 := [Chunk.mk finalizedText (mkPieceMeta heading ci)]
        let ci1 := ci + 1
        let ovText := sentOverlap finalizedText overlap
        let ct1 := estimateTokens ovText
        if ct1 + pieceTokens > maxTokens && ct1 > 0 then
          (out1 ++ [Chunk.mk (trimSpaceL ovText) (mkPieceMetaWarn heading ci1 warnText)],
            ([] : Str), (0 : Int), ci1 + 1)
        else (out1, ovText, ct1, ci1)
      else ([], currentChunk, currentTokens, ci)
    match step with
    | (out, cc, ct, ci2) =>
      let cc2 := if ¬cc.isEmpty && ¬hasSuffixL cc (str " ") then cc ++ str " " else cc
      let cc3 := cc2 ++ piece
      let ct2 := ct + pieceTokens
      if rest.isEmpty then
        if (trimSpaceL cc3).isEmpty then (out, ci2)
        else (out ++ [Chunk.mk (trimSpaceL cc3) (mkPieceMeta heading ci2)], ci2 + 1)
      else
        match accumPieces sentOverlap maxTokens overlap heading warnText rest cc3 ct2 ci2 with
        | (more, ciF) => (out ++ more, ciF)

/-- `FallbackChunker.Chunk`: trim, validate parameters, split into pieces,
accumulate (no `source_heading`; chunk indices start at 0). -/
def fallbackChunk (sentOverlap : Str → Int → Str) (body : Str)
    (maxTokens0 overlap0 : Int) : List Chunk :=
  let text := trimSpaceL body
  if text.isEmpty then []
  else
    let p := normalizeChunkParams maxTokens0 overlap0
    let pieces := intermediatePieces p.1 text
    (accumPieces sentOverlap p.1 p.2 none
      (str "Overlap truncated due to large piece following") pieces [] 0 0).1

/-- The capture group of `(?m)^#{2,}\s+(.*)$` on one line: two or more `#`,
at least one regexp white-space character, then the rest of the line. -/
def headingCapture (line : Str) : Option Str :=
  let hashes := line.takeWhile fun c => c = '#'
  let rest := line.dropWhile fun c => c = '#'
  if 2 ≤ hashes.length then
    match rest with
    | [] => none
    | c :: _ =>
      if c = ' ' || c = '\t' || c = '\r' || c.toNat = 12 then
        some (rest.dropWhile fun c2 => c2 = ' ' || c2 = '\t' || c2 = '\r' || c2.toNat = 12)
      else none
  else none

/-- Cut the body's lines at the heading lines: the lines before the first
heading, then for every heading its trimmed capture text and the lines up to
the next heading (the model of `re.FindAllStringSubmatchIndex` segmentation,
section texts being re-joined with the newlines the byte-offset slices keep
and `processSection` trims away again). -/
def mdSections : List Str → List Str × List (Str × List Str)
  | [] => ([], [])
  | line :: rest =>
    match headingCapture line with
    | some cap =>
      match mdSections rest with
      | (body, secs) => ([], (trimSpaceL cap, body) :: secs)
    | none =>
      match mdSections rest with
      | (body, secs) => (line :: body, secs)

/-- `processSection` of `MarkdownChunker.Chunk`: chunk one section's text,
tagging every chunk with the section's heading, threading the global chunk
index. -/
def mdProcessSection (sentOverlap : Str → Int → Str) (maxTokens overlap : Int)
    (sectionText : Str) (heading : Str) (ci : Int) : List Chunk × Int :=
  let t := trimSpaceL sectionText
  if t.isEmpty then ([], ci)
  else
    let pieces := intermediatePieces maxTokens t
    accumPieces sentOverlap maxTokens overlap (some heading)
      (str "Overlap truncated") pieces [] 0 ci

/-- Process the per-heading sections in order, threading the chunk index. -/
def mdProcessSecs (sentOverlap : Str → Int → Str) (maxTokens overlap : Int) :
    List (Str × List Str) → Int → List Chunk × Int
  | [], ci => ([], ci)
  | (h, lns) :: rest, ci =>
    match mdProcessSection sentOverlap maxTokens overlap (joinSep (str "\n") lns) h ci with
    | (cs, ci2) =>
      match mdProcessSecs sentOverlap maxTokens overlap rest ci2 with
      | (more, ci3) => (cs ++ more, ci3)

/-- `MarkdownChunker.Chunk`: trim, validate parameters, split the body at
`^#{2,}\s+...` headings, process the pre-heading text (empty heading) and then
each section. -/
def mdChunk (sentOverlap : Str → Int → Str) (body : Str)
    (maxTokens0 overlap0 : Int) : List Chunk :=
  let text := trimSpaceL body
  if text.isEmpty then []
  else
    let p := normalizeChunkParams maxTokens0 overlap0
    match mdSections (splitOnChar '\n' text) with
    | (pre, secs) =>
      if secs.isEmpty then
        (mdProcessSection sentOverlap p.1 p.2 text (str "") 0).1
      else
        match mdProcessSection sentOverlap p.1 p.2 (joinSep (str "\n") pre) (str "") 0 with
        | (preChunks, ci1) =>
          match mdProcessSecs sentOverlap p.1 p.2 secs ci1 with
          | (secChunks, _) => preChunks ++ secChunks

/-- `simpleChunkText` (html chunker file): plain word-window chunking with
overlap, tagging every chunk with the given parser type.  `fuel`-guarded by
the word count, which the strictly advancing start index never exhausts. -/
def simpleChunkGo (words : List Str) (maxTokens overlap : Int) (parserType : Str) :
    Nat → Int → Int → List Chunk
  | 0, _, _ => []
  | fuel + 1, startIndex, chunkIndex =>
    if startIndex < (words.length : Int) then
      let endIndex0 := startIndex + maxTokens
      let endIndex1 :=
        if endIndex0 > (words.length : Int) then (words.length : Int) else endIndex0
      let endIndex := if endIndex1 ≤ startIndex then startIndex + 1 else endIndex1
      let text := joinSep (str " ")
        ((words.drop startIndex.toNat).take (endIndex - startIndex).toNat)
      let nextStart0 := startIndex + maxTokens - overlap
      let nextStart := if nextStart0 ≤ startIndex then startIndex + 1 else nextStart0
      Chunk.mk text { parser := some parserType, chunkIndex := some chunkIndex }
        :: simpleChunkGo words maxTokens overlap parserType fuel nextStart (chunkIndex + 1)
    else []

/-- `simpleChunkText`. -/
def simpleChunkText (text : Str) (maxTokens overlap : Int) (parserType : Str) :
    List Chunk :=
  let words := fieldsL text
  if words.isEmpty then []
  else simpleChunkGo words maxTokens overlap parserType words.length 0 0

/-! ### HTML chunker (`htmlChunker.Chunk`)

`golang.org/x/net/html` documents are modelled by `HNode` (text and element
nodes); the parser itself is external and passed as a parameter.  The Go
traversal closure mutates six shared variables, modelled by threading
`HtmlTravState` — including the quirky shared `isBlock` flag, which after the
children loop holds the value assigned by the last node visited. -/

/-- A parsed HTML node. -/
inductive HNode where
  | text (s : Str)
  | elem (tag : Str) (children : List HNode)

/-- The tags whose content the traversal skips. -/
def htmlIgnoreTags : List Str :=
  [str "script", str "style", str "head", str "nav",
   str "footer", str "aside", str "form", str "noscript"]

/-- The block-level tag list of `isBlockElement`. -/
def htmlBlockTags : List Str :=
  [str "address", str "article", str "aside", str "blockquote", str "canvas",
   str "dd", str "div", str "dl", str "dt", str "fieldset", str "figcaption",
   str "figure", str "footer", str "form", str "h1", str "h2", str "h3",
   str "h4", str "h5", str "h6", str "header", str "hr", str "li", str "main",
   str "nav", str "noscript", str "ol", str "p", str "pre", str "section",
   str "table", str "tfoot", str "ul", str "video"]

/-- `isBlockElement`. -/
def isBlockElement : HNode → Bool
  | .elem tag _ => htmlBlockTags.contains tag
  | .text _ => false

/-- The six shared mutable variables of `htmlChunker.Chunk`. -/
structure HtmlTravState where
  chunks : List Chunk
  currentChunk : Str
  currentTokens : Int
  chunkIndex : Int
  isBlock : Bool
  currentBlockTags : List Str

/-- Handle one text node inside the traversal. -/
def travText (maxTokens overlap : Int) (s : Str) (st : HtmlTravState) : HtmlTravState :=
  let t := trimSpaceL s
  if t.isEmpty then st
  else
    let wordCount : Int := (fieldsL t).length
    let st1 :=
      if st.currentTokens + wordCount > maxTokens && ¬st.currentChunk.isEmpty then
        let finalized := Chunk.mk (trimSpaceL st.currentChunk)
          { chunkIndex := some st.chunkIndex, sourceTags := some st.currentBlockTags }
        let ovText := getOverlap st.currentChunk overlap
        let cc :=
          if ¬ovText.isEmpty && ¬hasSuffixL ovText (str " ") && ¬hasSuffixL ovText (str "\n")
          then ovText ++ str " " else ovText
        { st with
          chunks := st.chunks ++ [finalized]
          chunkIndex := st.chunkIndex + 1
          currentChunk := cc
          currentTokens := ((fieldsL ovText).length : Int) }
      else st
    let cc2 :=
      if ¬st1.currentChunk.isEmpty && ¬hasSuffixL st1.currentChunk (str " ") &&
          ¬hasSuffixL st1.currentChunk (str "\n")
      then st1.currentChunk ++ str " " else st1.currentChunk
    { st1 with currentChunk := cc2 ++ t, currentTokens := st1.currentTokens + wordCount }

mutual

/-- `traverse(n)`, with `next` the node's next sibling (used for the closing
block separator). -/
def travNode (maxTokens overlap : Int) (n : HNode) (next : Option HNode)
    (st : HtmlTravState) : HtmlTravState :=
  let skip := match n with
    | .elem tag _ => htmlIgnoreTags.contains tag
    | .text _ => false
  if skip then st
  else
    let st1 :=
      if st.isBlock && ¬st.currentChunk.isEmpty && ¬hasSuffixL st.currentChunk (str "\n\n")
      then { st with currentChunk := st.currentChunk ++ str "\n\n" } else st
    let st2 := match n with
      | .text s => travText maxTokens overlap s st1
      | .elem _ _ => st1
    let nIsBlock := isBlockElement n
    let st3 :=
      { st2 with
        isBlock := nIsBlock
        currentBlockTags :=
          match n, nIsBlock with
          | .elem tag _, true => st2.currentBlockTags ++ [tag]
          | _, _ => st2.currentBlockTags }
    let st4 := match n with
      | .text _ => st3
      | .elem _ children => travList maxTokens overlap children st3
    let st5 :=
      if st4.isBlock && ¬st4.currentChunk.isEmpty &&
          ¬hasSuffixL st4.currentChunk (str "\n\n") then
        let isNextBlock := match next with
          | some sib => isBlockElement sib
          | none => false
        if ¬isNextBlock || next.isNone then
          { st4 with currentChunk := st4.currentChunk ++ str "\n\n" }
        else st4
      else st4
    if nIsBlock && st5.currentBlockTags.length > 0 then
      { st5 with currentBlockTags := st5.currentBlockTags.dropLast }
    else st5

/-- The children loop of `traverse`. -/
def travList (maxTokens overlap : Int) (ns : List HNode) (st : HtmlTravState) :
    HtmlTravState :=
  match ns with
  | [] => st
  | n :: rest => travList maxTokens overlap rest (travNode maxTokens overlap n rest.head? st)

end

/-- `htmlChunker.Chunk`, statement for statement: trim and reject the empty
body, validate parameters, parse; on parse failure fall back to
`simpleChunkText` with parser `html-fallback`; on success run the
trailing-chunk append and the no-chunks check — both against the still-empty
mutable state, the source only invokes `traverse(doc)` after them — and only
then the traversal. -/
def htmlChunk (parse : Str → Option HNode) (body0 : Str)
    (maxTokens0 overlap0 : Int) : List Chunk :=
  let body := trimSpaceL body0
  if body.isEmpty then []
  else
    let p := normalizeChunkParams maxTokens0 overlap0
    match parse body with
    | none => simpleChunkText body0 p.1 p.2 (str "html-fallback")
    | some doc =>
      let st0 : HtmlTravState := ⟨[], [], 0, 0, false, []⟩
      let st1 :=
        if ¬st0.currentChunk.isEmpty then
          { st0 with
            chunks := st0.chunks ++ [Chunk.mk (trimSpaceL st0.currentChunk)
              { chunkIndex := some st0.chunkIndex
                sourceTags := some st0.currentBlockTags }] }
        else st0
      if st1.chunks.isEmpty && ¬body.isEmpty then
        simpleChunkText body0 p.1 p.2 (str "html-fallback")
      else
        (travNode p.1 p.2 doc none st1).chunks

/-! ### `ContentAwareChunk` (chunking.go): strategy selection and the
`parser` / `total_chunks` stamping. -/

/-- Look up a string key in the unmarshalled metadata object. -/
def metaLookup (kvs : List (Str × Str)) (key : Str) : Option Str :=
  (kvs.find? fun kv => kv.1 == key).map fun kv => kv.2

/-- `ContentAwareChunk`: pick the chunker from the `chunker` metadata override
or the content type, run it, and stamp `parser` and `total_chunks` onto every
produced chunk. -/
def contentAwareChunk (sentOverlap : Str → Int → Str)
    (htmlParse : Str → Option HNode) (content : Content)
    (maxTokens overlap : Int) : List Chunk :=
  let t0 := str "fallback"
  let t1 := match content.metadata with
    | some kvs =>
      match metaLookup kvs (str "chunker") with
      | some ovr => if ovr.isEmpty then t0 else toLowerL ovr
      | none => t0
    | none => t0
  let t2 :=
    if t1 = str "fallback" then
      let ctLower := toLowerL content.contentType
      if containsSub ctLower (str "markdown") then str "markdown"
      else if containsSub ctLower (str "html") then str "html"
      else t1
    else t1
  let t3 :=
    if t2 = str "markdown" || t2 = str "html" || t2 = str "fallback" then t2
    else str "fallback"
  let chunks :=
    if t3 = str "markdown" then mdChunk sentOverlap content.body maxTokens overlap
    else if t3 = str "html" then htmlChunk htmlParse content.body maxTokens overlap
    else fallbackChunk sentOverlap content.body maxTokens overlap
  let total : Int := chunks.length
  chunks.map fun ch =>
    { ch with metadata :=
      { ch.metadata with parser := some t3, totalChunks := some total } }

/-! ## Input processor (`inputprocessor`, part_005): the URL branch

The claims concern inputs that are not filesystem paths and parse as http(s)
URLs; the slice modelled here is the handling of the HTTP response the GET
produced (`http.DetectContentType` is external and passed in). -/

/-- The `Result` of the input processor, for the URL branch. -/
structure ProcResult where
  body : Str
  contentType : Str
  filePath : Option Str
  fileSize : Option Int
  url : Option Str
  inputType : Str
deriving DecidableEq, Repr

/-- The errors the URL branch can surface after a transport-level success. -/
inductive ProcErr where
  | fetchStatus (status : Int)
  | readBody
deriving DecidableEq, Repr

/-- `defaultProcessor.Process`, URL branch, from the point where the GET has
returned a response: any status other than `http.StatusOK` (200) is rejected
with an error carrying the status code; on 200 the body is read, the MIME
type taken from the `Content-Type` header (detected from the body when the
header is empty), and the URL carried through. -/
def processUrlResponse (input : Str) (status : Int) (respBody : Str)
    (ctHeader : Str) (detectContentType : Str → Str) :
    Except ProcErr ProcResult :=
  if status ≠ 200 then .error (.fetchStatus status)
  else
    let ct := if ctHeader.isEmpty then detectContentType respBody else ctHeader
    .ok { body := respBody, contentType := ct, filePath := none, fileSize := none,
          url := some input, inputType := str "url" }

/-! ## Ingestion orchestrator (`ContentService.AddContent`, part_010)

The enrichment side effects (job enqueues, the categorization call, tag
association) are recorded in an explicit effect list; the LLM categorization
outcome is an external collaborator passed as `catResult` (`none` modelling a
failed call). -/

/-- The enrichment side effects `AddContent` can perform. -/
inductive Effect where
  | embeddingJob (contentId : Int)
  | categorizeCall (contentId : Int)
  | tagAssociation (contentId : Int) (tagIds : List Int)
  | summarizationJob (contentId : Int)
deriving DecidableEq, Repr

/-- The configuration bits `AddContent` consults. -/
structure IngestCfg where
  hasJobClient : Bool
  autoApplyTags : Bool
  hasCategorizationService : Bool
  summarizationEnabled : Bool
deriving DecidableEq, Repr

/-- `GetOrCreateTagsByName`: for each trimmed, non-empty name, find the tag by
case-insensitive name or create it (slug from lower-cased name, spaces to
dashes). Returns the updated table and the tag rows in input order. -/
def getOrCreateTagsByName (tags : List TagRow) (names : List Str) :
    List TagRow × List TagRow :=
  names.foldl
    (fun acc name0 =>
      let name := trimSpaceL name0
      if name.isEmpty then acc
      else
        match acc.1.find? fun t => toLowerL t.name == toLowerL name with
        | some t => (acc.1, acc.2 ++ [t])
        | none =>
          let newTag : TagRow :=
            { id := ((acc.1.foldl (fun m t => max m t.id) 0) + 1)
              name := name
              slug := toLowerL (name.map fun c => if c = ' ' then '-' else c) }
          (acc.1 ++ [newTag], acc.2 ++ [newTag]))
    (tags, [])

/-- The result of one `AddContent` call. -/
structure AddContentResult where
  content : Content
  existed : Bool
  contents : List Content
  tags : List TagRow
  effects : List Effect
deriving Repr

/-- `ContentService.AddContent` after input processing and source resolution:
build the content model, deduplicate through `CreateContentIfNotExists`, and
only when the content did not exist run the enrichment: embedding enqueue (if
a job client is configured), auto-categorization with tag application (if
enabled and available), summarization enqueue (if enabled and a job client is
configured). -/
def addContent (now : Int) (cfg : IngestCfg) (catResult : Option (List Str))
    (db : List Content) (tagDb : List TagRow) (sourceId : Int)
    (title body contentType : Str) (filePath : Option Str)
    (fileSize : Option Int) (mtime : Option Int) :
    Except StoreErr AddContentResult :=
  let c : Content :=
    { id := 0, sourceId := sourceId, title := title, body := body
      contentHash := [], filePath := filePath, fileSize := fileSize
      contentType := contentType, metadata := none, summary := none
      isEmbedded := false, embeddingId := none
      createdAt := 0, updatedAt := 0, modifiedAt := mtime }
  match createContentIfNotExists now db [] c with
  | .error e => .error e
  | .ok (content, existed, db2) =>
    if existed then
      .ok { content := content, existed := true, contents := db2, tags := tagDb
            effects := [] }
    else
      let embedEffects :=
        if cfg.hasJobClient then [Effect.embeddingJob content.id] else []
      let catStep :=
        if cfg.autoApplyTags && cfg.hasCategorizationService then
          match catResult with
          | some tagNames =>
            if tagNames.isEmpty then ([Effect.categorizeCall content.id], tagDb)
            else
              match getOrCreateTagsByName tagDb tagNames with
              | (tagDb2, tagObjs) =>
                if tagObjs.isEmpty then ([Effect.categorizeCall content.id], tagDb2)
                else
                  ([Effect.categorizeCall content.id,
                    Effect.tagAssociation content.id (tagObjs.map fun t => t.id)], tagDb2)
          | none => ([Effect.categorizeCall content.id], tagDb)
        else ([], tagDb)
      let sumEffects :=
        if cfg.summarizationEnabled && cfg.hasJobClient then
          [Effect.summarizationJob content.id]
        else []
      .ok { content := content, existed := false, contents := db2
            tags := catStep.2
            effects := embedEffects ++ catStep.1 ++ sumEffects }

/-! ## Concrete fixtures used by witnesses and counterexamples -/

/-- A content row template for concrete instances. -/
def baseContent : Content :=
  { id := 0, sourceId := 1, title := str "t", body := str "hello world"
    contentHash := [], filePath := none, fileSize := none
    contentType := str "text/plain", metadata := none, summary := none
    isEmbedded := false, embeddingId := none
    createdAt := 0, updatedAt := 0, modifiedAt := none }

/-- A sentence-overlap function instance (the overlap computation is not
reached on the concrete inputs below). -/
def noSentOverlap : Str → Int → Str := fun _ _ => []

/-- The markdown body of the spec's walkthrough example. -/
def mdDemoBody : Str := str "## Intro\npara1\n\n## Body\npara2"

/-- A markdown content row carrying the walkthrough body. -/
def mdDemoContent : Content :=
  { baseContent with body := mdDemoBody, contentType := str "text/markdown" }

/-- A tiny parsed HTML document (for `<p>hello world</p>`). -/
def htmlDemoDoc : HNode :=
  .elem (str "html") [.elem (str "body") [.elem (str "p") [.text (str "hello world")]]]

/-- A parser instance that succeeds with `htmlDemoDoc` on every input. -/
def htmlDemoParse : Str → Option HNode := fun _ => some htmlDemoDoc

/-- Concrete job-record parameters for the idempotence witness. -/
def jobDemoParams : JobRecordParams :=
  ⟨str "u1", str "embed", none, str "default", str "enqueued", str "content", 7⟩

/-- The SHA-256 hex digest of "hello world". -/
def helloWorldHash : Str :=
  str "b94d27b9934d3e08a52e52d7da7dabfac484efe37a5380ee9088f7ace2efcde9"

/-- A concurrently inserted row bearing the "hello world" hash. -/
def raceWinner : Content :=
  { baseContent with id := 42, contentHash := helloWorldHash }

/-- A stored row bearing the "hello world" body and its hash. -/
def storedHello : Content :=
  { baseContent with id := 1, contentHash := helloWorldHash }

/-- A two-row content table with ids 1 and 3. -/
def idsDemoDb : List Content :=
  [{ baseContent with id := 1 }, { baseContent with id := 3, title := str "t3" }]

/-- A store whose id order and creation order disagree: id 1 was created
after id 2. -/
def listDemoDb : PrimaryDb :=
  { contents :=
      [{ baseContent with id := 1, createdAt := 20 },
       { baseContent with id := 2, createdAt := 10 }]
    tags := [], contentTags := [] }

/- ──────────────────────────  THEOREMS  ────────────────────────── -/

/-! ## General helper lemmas -/

theorem find?_eq_none_any_eq_false {α : Type} {p : α → Bool} {l : List α}
    (h : l.find? p = none) : l.any p = false := by
  induction l with
  | nil => rfl
  | cons x xs ih =>
    rw [List.find?_cons] at h
    rw [List.any_cons]
    by_cases hx : p x = true
    · simp [hx] at h
    · simp only [Bool.not_eq_true] at hx
      rw [hx] at h ⊢
      simp only [Bool.false_or]
      exact ih h

theorem find?_append_of_none {α : Type} {p : α → Bool} {l1 : List α}
    (l2 : List α) (h : l1.find? p = none) :
    (l1 ++ l2).find? p = l2.find? p := by
  induction l1 with
  | nil => rfl
  | cons x xs ih =>
    rw [List.find?_cons] at h
    rw [List.cons_append, List.find?_cons]
    by_cases hx : p x = true
    · simp [hx] at h
    · simp only [Bool.not_eq_true] at hx
      rw [hx] at h ⊢
      exact ih h

theorem filter_eq_nil_of_any_eq_false {α : Type} {p : α → Bool} {l : List α}
    (h : l.any p = false) : l.filter p = [] := by
  induction l with
  | nil => rfl
  | cons x xs ih =>
    rw [List.any_cons, Bool.or_eq_false_iff] at h
    rw [List.filter_cons, h.1]
    exact ih h.2

/-! ## C1 — deduplication in `CreateContentIfNotExists` -/

theorem createContentIfNotExists_of_present (now : Int) (db race : List Content)
    (c ex : Content)
    (hfound : findContentByHash db (calculateHash c.body) = some ex) :
    createContentIfNotExists now db race c = .ok (ex, true, db) := by
  rw [createContentIfNotExists, hfound]

theorem createContentIfNotExists_of_absent (now : Int) (db : List Content)
    (c : Content)
    (habsent : findContentByHash db (calculateHash c.body) = none) :
    createContentIfNotExists now db [] c =
      .ok (insertedContent now db c, false, db ++ [insertedContent now db c]) := by
  have hany : (db.any fun r => r.contentHash == calculateHash c.body) = false :=
    find?_eq_none_any_eq_false habsent
  rw [createContentIfNotExists, habsent]
  simp only [List.append_nil, createContent]
  have hb : ({ c with contentHash := calculateHash c.body } : Content).body = c.body := rfl
  rw [hb, hany]
  rfl

theorem createContentIfNotExists_race (now : Int) (db : List Content)
    (c w : Content)
    (habsent : findContentByHash db (calculateHash c.body) = none)
    (hw : w.contentHash = calculateHash c.body) :
    createContentIfNotExists now db [w] c = .ok (w, true, db ++ [w]) := by
  have hany : (db.any fun r => r.contentHash == calculateHash c.body) = false :=
    find?_eq_none_any_eq_false habsent
  have hanyw : ((db ++ [w]).any fun r => r.contentHash == calculateHash c.body) = true := by
    rw [List.any_append, hany]
    simp [hw]
  have hfindw : findContentByHash (db ++ [w]) (calculateHash c.body) = some w := by
    rw [findContentByHash, find?_append_of_none _ habsent]
    simp [List.find?_cons, hw]
  rw [createContentIfNotExists, habsent]
  simp only [createContent]
  have hb : ({ c with contentHash := calculateHash c.body } : Content).body = c.body := rfl
  rw [hb]
  simp [hanyw, hfindw]

/-- C1: `CreateContentIfNotExists` hashes the body with SHA-256 (hex), and is
idempotent: on a body whose hash is absent it inserts exactly one row and
reports `existed = false`; a later call with the same body (whatever the other
fields) returns that same stored row with `existed = true` and inserts
nothing; and when a concurrent writer wins the uniqueness race on the hash the
call re-fetches and returns the winning row with `existed = true`. -/
theorem c1_create_content_if_not_exists_dedup
    (now1 now2 now3 : Int) (db : List Content) (c c2 w : Content)
    (habsent : findContentByHash db (calculateHash c.body) = none)
    (hbody : c2.body = c.body)
    (hw : w.contentHash = calculateHash c.body) :
    createContentIfNotExists now1 db [] c =
      .ok (insertedContent now1 db c, false, db ++ [insertedContent now1 db c]) ∧
    (insertedContent now1 db c).contentHash =
      hexEncode (sha256Digest (utf8Bytes c.body)) ∧
    createContentIfNotExists now2 (db ++ [insertedContent now1 db c]) [] c2 =
      .ok (insertedContent now1 db c, true, db ++ [insertedContent now1 db c]) ∧
    createContentIfNotExists now3 db [w] c2 = .ok (w, true, db ++ [w]) := by
  refine ⟨createContentIfNotExists_of_absent now1 db c habsent, rfl, ?_, ?_⟩
  · apply createContentIfNotExists_of_present
    rw [findContentByHash, hbody, find?_append_of_none _ habsent]
    simp [List.find?_cons, insertedContent]
  · exact createContentIfNotExists_race now3 db c2 w (by rw [hbody]; exact habsent)
      (by rw [hbody]; exact hw)

set_option maxHeartbeats 4000000 in
/-- C1 witness: a fresh "hello world" body on an empty table, re-added, and
raced against a concurrent writer. -/
theorem c1_create_content_if_not_exists_dedup_witness :
    findContentByHash [] (calculateHash baseContent.body) = none ∧
    ({ baseContent with title := str "other" } : Content).body = baseContent.body ∧
    raceWinner.contentHash = calculateHash baseContent.body ∧
    (createContentIfNotExists 1 [] [] baseContent =
      .ok (insertedContent 1 [] baseContent, false,
        [] ++ [insertedContent 1 [] baseContent]) ∧
    (insertedContent 1 [] baseContent).contentHash =
      hexEncode (sha256Digest (utf8Bytes baseContent.body)) ∧
    createContentIfNotExists 2 ([] ++ [insertedContent 1 [] baseContent]) []
        { baseContent with title := str "other" } =
      .ok (insertedContent 1 [] baseContent, true,
        [] ++ [insertedContent 1 [] baseContent]) ∧
    createContentIfNotExists 3 [] [raceWinner]
        { baseContent with title := str "other" } =
      .ok (raceWinner, true, [] ++ [raceWinner])) :=
  ⟨rfl, rfl, by decide,
    c1_create_content_if_not_exists_dedup 1 2 3 [] baseContent
      { baseContent with title := str "other" } raceWinner rfl rfl (by decide)⟩

/-! ## C3 — no enrichment side effects for duplicate bodies -/

/-- C3: when the body being ingested already exists (dedup hit), `AddContent`
returns the stored content with `existed = true` and performs none of the
enrichment effects: no embedding job, no categorization call, no tag or
collection association, no summarization job; the content and tag tables are
untouched. -/
theorem c3_add_content_duplicate_no_enrichment
    (now : Int) (cfg : IngestCfg) (catResult : Option (List Str))
    (db : List Content) (tagDb : List TagRow) (sourceId : Int)
    (title body contentType : Str) (filePath : Option Str)
    (fileSize : Option Int) (mtime : Option Int) (ex : Content)
    (hfound : findContentByHash db (calculateHash body) = some ex) :
    addContent now cfg catResult db tagDb sourceId title body contentType
        filePath fileSize mtime =
      .ok { content := ex, existed := true, contents := db, tags := tagDb
            effects := [] } := by
  rw [addContent, createContentIfNotExists_of_present now db []
    { id := 0, sourceId := sourceId, title := title, body := body
      contentHash := [], filePath := filePath, fileSize := fileSize
      contentType := contentType, metadata := none, summary := none
      isEmbedded := false, embeddingId := none
      createdAt := 0, updatedAt := 0, modifiedAt := mtime } ex hfound]
  rfl

set_option maxHeartbeats 4000000 in
/-- C3 witness: re-adding the "hello world" body with every enrichment switch
enabled enqueues nothing and associates nothing. -/
theorem c3_add_content_duplicate_no_enrichment_witness :
    findContentByHash [storedHello] (calculateHash (str "hello world")) =
      some storedHello ∧
    addContent 9 ⟨true, true, true, true⟩ (some [str "go"]) [storedHello]
        [] 1 (str "t2") (str "hello world") (str "text/plain") none none none =
      .ok { content := storedHello, existed := true, contents := [storedHello]
            tags := [], effects := [] } :=
  ⟨by decide,
    c3_add_content_duplicate_no_enrichment 9 ⟨true, true, true, true⟩
      (some [str "go"]) [storedHello] [] 1 (str "t2") (str "hello world")
      (str "text/plain") none none none storedHello (by decide)⟩

/-! ## C2 — the provider rotation of the fallback embedding service -/

theorem fbRun_all_fail_no_return (n : Nat) (mA bD : Int) (hn : 2 ≤ n) :
    ∀ fuel (st : FbState), st.active < n → st.initial = st.active →
      fbRun n mA bD fuel st = none := by
  intro fuel
  induction fuel with
  | zero => intro st _ _; rfl
  | succ k ih =>
    intro st hlt hinit
    rw [fbRun]
    by_cases hb : nextBackoff mA bD st.attempt < 0
    · rw [if_pos hb]
      by_cases heq : (st.active + 1) % n = st.initial
      · exfalso
        rw [hinit] at heq
        rcases Nat.lt_or_ge (st.active + 1) n with h1 | h1
        · rw [Nat.mod_eq_of_lt h1] at heq
          omega
        · have hne : st.active + 1 = n := by omega
          rw [hne, Nat.mod_self] at heq
          omega
      · rw [if_neg heq]
        exact ih _ (Nat.mod_lt _ (by omega)) rfl
    · rw [if_neg hb]
      exact ih _ hlt hinit

/-- C2: the claim says that when every provider fails on every attempt the
call terminates with an "all providers exhausted" error after at most
N × max_attempts provider invocations.  The code re-assigns
`initialProviderIndex` to the new index on every provider switch, so for two
or more providers the exhaustion test `next == initial` can never fire and the
loop never returns: for every fuel bound the loop is still running.  (For
N = 1 the loop does return, after max_attempts + 1 invocations.) -/
theorem c2_fallback_rotation_never_terminates (n : Nat) (maxAttempts baseDelayMs : Int)
    (activeAtCall fuel : Nat) (hn : 2 ≤ n) (ha : activeAtCall < n) :
    fbGenerateAllFail n maxAttempts baseDelayMs activeAtCall fuel = none :=
  fbRun_all_fail_no_return n maxAttempts baseDelayMs hn fuel _ ha rfl

/-- C2 witness: two providers with the production retry strategy
(MaxAttempts 3, BaseDelayMs 200), a thousand loop iterations, still running. -/
theorem c2_fallback_rotation_never_terminates_witness :
    2 ≤ 2 ∧ 0 < 2 ∧ fbGenerateAllFail 2 3 200 0 1000 = none :=
  ⟨by decide, by decide,
    c2_fallback_rotation_never_terminates 2 3 200 0 1000 (by decide) (by decide)⟩

/-! ## C4 — the HTML chunker's unreachable traversal -/

/-- C4: the claim says the HTML strategy traverses the parsed tree and uses
the `parser=html-fallback` text fallback only when HTML parsing fails.  In the
code the `len(chunks) == 0` fallback check precedes the `traverse(doc)` call,
and nothing has appended a chunk by then, so for every successfully parsed
non-empty body the function returns the text-strategy fallback with
`parser=html-fallback` and the traversal is dead code. -/
theorem c4_html_chunker_always_falls_back (parse : Str → Option HNode)
    (body : Str) (maxTokens overlap : Int) (doc : HNode)
    (hparse : parse (trimSpaceL body) = some doc)
    (hne : (trimSpaceL body).isEmpty = false) :
    htmlChunk parse body maxTokens overlap =
      simpleChunkText body (normalizeChunkParams maxTokens overlap).1
        (normalizeChunkParams maxTokens overlap).2 (str "html-fallback") := by
  rw [htmlChunk]
  simp [hne, hparse]

/-- C4 witness: `<p>hello world</p>` parses, yet the result is the
`html-fallback` text chunking. -/
theorem c4_html_chunker_always_falls_back_witness :
    htmlDemoParse (trimSpaceL (str "<p>hello world</p>")) = some htmlDemoDoc ∧
    (trimSpaceL (str "<p>hello world</p>")).isEmpty = false ∧
    htmlChunk htmlDemoParse (str "<p>hello world</p>") 200 50 =
      simpleChunkText (str "<p>hello world</p>") (normalizeChunkParams 200 50).1
        (normalizeChunkParams 200 50).2 (str "html-fallback") :=
  ⟨rfl, by decide,
    c4_html_chunker_always_falls_back htmlDemoParse (str "<p>hello world</p>")
      200 50 htmlDemoDoc rfl (by decide)⟩

/-! ## C6 — chunk parameter validation and token estimation -/

theorem normalizeChunkParams_idem (mt ov : Int) :
    normalizeChunkParams (normalizeChunkParams mt ov).1
      (normalizeChunkParams mt ov).2 = normalizeChunkParams mt ov := by
  simp only [normalizeChunkParams, defaultMaxTokens, defaultOverlap]
  split_ifs <;> first | rfl | (simp_all; omega) | omega

/-- C6: every chunking strategy validates its parameters the same way —
`max_tokens ≤ 0` becomes 200, a negative overlap becomes 50, an overlap at or
above `max_tokens` is clamped to `max_tokens − 1` — and the token count of a
text is the number of its whitespace-separated fields.  The last three
conjuncts show each strategy's result only depends on the validated
parameters. -/
theorem c6_chunk_param_validation (maxTokens overlap : Int) (t body : Str)
    (sentOverlap : Str → Int → Str) (parse : Str → Option HNode) :
    normalizeChunkParams maxTokens overlap =
      ((if maxTokens ≤ 0 then 200 else maxTokens),
        (if (if overlap < 0 then 50 else overlap) ≥
            (if maxTokens ≤ 0 then 200 else maxTokens)
         then (if maxTokens ≤ 0 then 200 else maxTokens) - 1
         else (if overlap < 0 then 50 else overlap))) ∧
    estimateTokens t = ((fieldsL t).length : Int) ∧
    fallbackChunk sentOverlap body maxTokens overlap =
      fallbackChunk sentOverlap body (normalizeChunkParams maxTokens overlap).1
        (normalizeChunkParams maxTokens overlap).2 ∧
    mdChunk sentOverlap body maxTokens overlap =
      mdChunk sentOverlap body (normalizeChunkParams maxTokens overlap).1
        (normalizeChunkParams maxTokens overlap).2 ∧
    htmlChunk parse body maxTokens overlap =
      htmlChunk parse body (normalizeChunkParams maxTokens overlap).1
        (normalizeChunkParams maxTokens overlap).2 := by
  refine ⟨rfl, rfl, ?_, ?_, ?_⟩
  · simp only [fallbackChunk, normalizeChunkParams_idem]
  · simp only [mdChunk, normalizeChunkParams_idem]
  · simp only [htmlChunk, normalizeChunkParams_idem]

/-! ## C7 — the input processor's URL status handling -/

/-- C7 counterexample: the claim says any 2xx response is accepted; the code
accepts only `http.StatusOK` (200), so a 201 response is rejected with a
fetch error carrying the status code. -/
theorem c7_counterexample :
    processUrlResponse (str "http://example.com") 201 (str "created")
      (str "text/plain") (fun _ => str "application/octet-stream") =
      .error (.fetchStatus 201) := rfl

/-- C7 (amended): for a syntactically valid http/https URL input, the fetch
requires status exactly 200: on 200 the response body and MIME type are
returned with the URL carried through; on every other status — other 2xx
codes such as 201 included, and 500 in particular — the call fails with a
fetch error that includes the status code. -/
theorem c7_url_fetch_requires_exactly_200 (input respBody ctHeader : Str)
    (status : Int) (detect : Str → Str) :
    (status = 200 →
      processUrlResponse input status respBody ctHeader detect =
        .ok { body := respBody
              contentType := if ctHeader.isEmpty then detect respBody else ctHeader
              filePath := none, fileSize := none, url := some input
              inputType := str "url" }) ∧
    (status ≠ 200 →
      processUrlResponse input status respBody ctHeader detect =
        .error (.fetchStatus status)) := by
  constructor
  · intro h
    rw [processUrlResponse, if_neg (by omega)]
  · intro h
    rw [processUrlResponse, if_pos h]

/-- C7 witness: a 500 response surfaces a fetch error with the status code,
and a 200 response returns the body. -/
theorem c7_url_fetch_requires_exactly_200_witness :
    processUrlResponse (str "http://example.com") 500 (str "oops")
      (str "text/html") (fun _ => str "d") = .error (.fetchStatus 500) ∧
    processUrlResponse (str "http://example.com") 200 (str "page")
      (str "text/html") (fun _ => str "d") =
      .ok { body := str "page", contentType := str "text/html"
            filePath := none, fileSize := none
            url := some (str "http://example.com"), inputType := str "url" } :=
  ⟨(c7_url_fetch_requires_exactly_200 (str "http://example.com") (str "oops")
      (str "text/html") 500 (fun _ => str "d")).2 (by decide),
    by
      have h := (c7_url_fetch_requires_exactly_200 (str "http://example.com")
        (str "page") (str "text/html") 200 (fun _ => str "d")).1 rfl
      simpa using h⟩

/-! ## C9 — idempotent job-enqueue records -/

/-- C9: recording a job enqueue is idempotent on the task UUID: a first call
with a fresh UUID inserts one row and succeeds, a second call with the same
UUID is a no-op that also succeeds, and exactly one row with that UUID is in
the table afterwards. -/
theorem c9_record_job_enqueue_idempotent (now1 now2 : Int)
    (jobs : List JobRecord) (p q : JobRecordParams)
    (hsame : q.jobId = p.jobId)
    (hfresh : (jobs.any fun j => j.jobId == p.jobId) = false) :
    ∃ row : JobRecord,
      recordJobEnqueue now1 jobs p = (jobs ++ [row], .ok ()) ∧
      recordJobEnqueue now2 (jobs ++ [row]) q = (jobs ++ [row], .ok ()) ∧
      ((jobs ++ [row]).filter fun j => j.jobId == q.jobId).length = 1 := by
  refine ⟨{ jobId := p.jobId, taskType := p.taskType
            payload := p.payload.getD (str "{}"), queue := p.queue
            status := p.status, relatedEntityType := p.relatedEntityType
            relatedEntityId :=
              if p.relatedEntityId = 0 then none else some p.relatedEntityId
            createdAt := now1, updatedAt := now1 }, ?_, ?_, ?_⟩
  · rw [recordJobEnqueue, hfresh]
    simp only [Bool.false_eq_true, if_false]
  · rw [recordJobEnqueue]
    have hany : ((jobs ++
        [({ jobId := p.jobId, taskType := p.taskType
            payload := p.payload.getD (str "{}"), queue := p.queue
            status := p.status, relatedEntityType := p.relatedEntityType
            relatedEntityId :=
              if p.relatedEntityId = 0 then none else some p.relatedEntityId
            createdAt := now1, updatedAt := now1 } : JobRecord)]).any
          fun j => j.jobId == q.jobId) = true := by
      rw [List.any_append, hsame]
      simp [hfresh]
    rw [hany]
    simp only [if_true]
  · rw [List.filter_append]
    have h1 : (jobs.filter fun j => j.jobId == q.jobId) = [] := by
      apply filter_eq_nil_of_any_eq_false
      rw [hsame]
      exact hfresh
    rw [h1]
    simp [hsame]

/-- C9 witness: a concrete double record of the same task UUID on an empty
table. -/
theorem c9_record_job_enqueue_idempotent_witness :
    jobDemoParams.jobId = jobDemoParams.jobId ∧
    (([] : List JobRecord).any fun j => j.jobId == jobDemoParams.jobId) = false ∧
    ∃ row : JobRecord,
      recordJobEnqueue 1 [] jobDemoParams = (([] : List JobRecord) ++ [row], .ok ()) ∧
      recordJobEnqueue 2 (([] : List JobRecord) ++ [row]) jobDemoParams =
        (([] : List JobRecord) ++ [row], .ok ()) ∧
      ((([] : List JobRecord) ++ [row]).filter fun j =>
        j.jobId == jobDemoParams.jobId).length = 1 :=
  ⟨rfl, rfl,
    c9_record_job_enqueue_idempotent 1 2 [] jobDemoParams jobDemoParams rfl rfl⟩

/-! ## C5 — the markdown walkthrough example -/

/-- C5 counterexample: the claim says the two chunks of
`## Intro\npara1\n\n## Body\npara2` carry `source_heading` values
"## Intro" and "## Body"; the chunker stores the regexp capture group, which
excludes the `#{2,}\s+` marker, so the stored values are "Intro" and
"Body". -/
theorem c5_counterexample :
    (contentAwareChunk noSentOverlap (fun _ => none) mdDemoContent 200 50).map
      (fun ch => ch.metadata.sourceHeading) ≠
    [some (str "## Intro"), some (str "## Body")] := by decide

/-- C5 (amended): chunking the markdown body `## Intro\npara1\n\n## Body\npara2`
with default parameters emits exactly two chunks whose `source_heading`
metadata values are "Intro" and "Body" (the heading text without the `## `
marker), whose `chunk_index` values are 0 and 1, and whose `total_chunks`
metadata is 2 on both chunks. -/
theorem c5_markdown_two_sections (sentOverlap : Str → Int → Str)
    (htmlParse : Str → Option HNode) :
    contentAwareChunk sentOverlap htmlParse mdDemoContent 200 50 =
      [Chunk.mk (str "para1")
        { parser := some (str "markdown"), chunkIndex := some 0
          totalChunks := some 2, sourceHeading := some (str "Intro") },
       Chunk.mk (str "para2")
        { parser := some (str "markdown"), chunkIndex := some 1
          totalChunks := some 2, sourceHeading := some (str "Body") }] := rfl

/-! ## C10 — positional alignment of `GetContentsByIDs` -/

theorem filter_eq_nil_of_all_false {α : Type} {p : α → Bool} {l : List α}
    (h : ∀ a ∈ l, p a = false) : l.filter p = [] := by
  induction l with
  | nil => rfl
  | cons x xs ih =>
    rw [List.filter_cons, h x (List.mem_cons_self x xs)]
    exact ih fun a ha => h a (List.mem_cons_of_mem x ha)

theorem mapLookupLast_filter_eq_find? (ids : List Int) (k : Int) (hk : k ∈ ids) :
    ∀ db : List Content, (db.map fun c => c.id).Nodup →
      mapLookupLast ((db.filter fun c => ids.contains c.id).map fun c => (c.id, c)) k =
        db.find? fun c => c.id == k := by
  intro db
  induction db with
  | nil => intro _; rfl
  | cons c rest ih =>
    intro hnodup
    have hhead := (List.nodup_cons.mp hnodup).1
    have htail := (List.nodup_cons.mp hnodup).2
    rw [List.filter_cons]
    by_cases hc : (ids.contains c.id) = true
    · rw [if_pos hc, List.map_cons, mapLookupLast, List.filter_cons]
      by_cases hck : (c.id == k) = true
      · have hpk : (((c.id, c) : Int × Content).1 == k) = true := hck
        rw [if_pos hpk]
        have hkc : c.id = k := eq_of_beq hck
        have hrest :
            (((rest.filter fun r => ids.contains r.id).map fun r => (r.id, r)).filter
              fun q => q.1 == k) = [] := by
          apply filter_eq_nil_of_all_false
          intro q hq
          rcases List.mem_map.mp hq with ⟨r, hrmem, rfl⟩
          have hr : r ∈ rest := (List.mem_filter.mp hrmem).1
          have hne : r.id ≠ k := by
            intro he
            apply hhead
            show c.id ∈ rest.map fun c => c.id
            rw [hkc, ← he]
            exact List.mem_map_of_mem (fun c => c.id) hr
          exact beq_false_of_ne hne
        rw [hrest]
        simp [List.find?_cons, hck]
      · have hpk : (((c.id, c) : Int × Content).1 == k) = false := by
          simpa using hck
        rw [if_neg (by simp [hpk])]
        have hthis := ih htail
        rw [mapLookupLast] at hthis
        rw [hthis]
        simp [List.find?_cons, hck]
    · rw [if_neg hc]
      have hck : (c.id == k) = false := by
        apply beq_false_of_ne
        intro he
        rw [he] at hc
        exact hc (List.elem_eq_true_of_mem hk)
      rw [ih htail]
      simp [List.find?_cons, hck]

/-- C10: the slice `GetContentsByIDs` returns is positionally aligned with the
input id list — entry i is the stored row with id `ids[i]`, or `nil` (`none`)
when that id is absent — so it always has the input's length, absent ids do
not fail the call, and an empty input returns an empty slice without issuing
a query (the boolean in the model records whether a query ran). -/
theorem c10_get_contents_by_ids_aligned (db : List Content) (ids : List Int)
    (hnodup : (db.map fun c => c.id).Nodup) :
    (getContentsByIDs db ids).1 =
      (ids.map fun k => db.find? fun c => c.id == k) ∧
    (getContentsByIDs db ids).1.length = ids.length ∧
    (getContentsByIDs db ids).2 = !ids.isEmpty ∧
    (ids = [] → getContentsByIDs db ids = ([], false)) := by
  have hmain : (getContentsByIDs db ids).1 =
      ids.map fun k => db.find? fun c => c.id == k := by
    cases ids with
    | nil => rfl
    | cons i rest =>
      rw [getContentsByIDs]
      simp only [List.isEmpty_cons, Bool.false_eq_true, if_false]
      exact List.map_congr_left fun k hk =>
        mapLookupLast_filter_eq_find? (i :: rest) k hk db hnodup
  refine ⟨hmain, by rw [hmain, List.length_map], ?_, ?_⟩
  · cases ids with
    | nil => rfl
    | cons i rest => rfl
  · intro h
    subst h
    rfl

/-- C10 witness: ids `[3, 99, 1]` over a two-row store — 99 is absent and
yields `none` in place — and the empty id list issues no query. -/
theorem c10_get_contents_by_ids_aligned_witness :
    ((idsDemoDb.map fun c => c.id).Nodup) ∧
    (getContentsByIDs idsDemoDb [3, 99, 1]).1 =
      ([3, 99, 1].map fun k => idsDemoDb.find? fun c => c.id == k) ∧
    (getContentsByIDs idsDemoDb [3, 99, 1]).1.length = ([3, 99, 1] : List Int).length ∧
    (getContentsByIDs idsDemoDb []).2 = !([] : List Int).isEmpty :=
  ⟨by decide,
    (c10_get_contents_by_ids_aligned idsDemoDb [3, 99, 1] (by decide)).1,
    (c10_get_contents_by_ids_aligned idsDemoDb [3, 99, 1] (by decide)).2.1,
    (c10_get_contents_by_ids_aligned idsDemoDb [] (by decide)).2.2.1⟩

/-! ## C8 — `ListContent` sorting and filtering -/

theorem bool_and_split {a b : Bool} (h : (a && b) = true) :
    a = true ∧ b = true := by
  cases a <;> cases b <;> simp_all

theorem strLe_total : ∀ a b : Str, strLe a b = true ∨ strLe b a = true := by
  intro a
  induction a with
  | nil => intro b; left; rfl
  | cons x xs ih =>
    intro b
    cases b with
    | nil => right; rfl
    | cons y ys =>
      rw [strLe, strLe]
      by_cases hxy : x = y
      · subst hxy
        rw [if_pos rfl, if_pos rfl]
        exact ih ys
      · rw [if_neg hxy, if_neg (Ne.symm hxy)]
        rcases Nat.le_total x.toNat y.toNat with h | h
        · left; exact decide_eq_true h
        · right; exact decide_eq_true h

theorem optIntLeNullsLast_total (a b : Option Int) :
    optIntLeNullsLast a b = true ∨ optIntLeNullsLast b a = true := by
  cases a with
  | none => cases b <;> simp [optIntLeNullsLast]
  | some x =>
    cases b with
    | none => simp [optIntLeNullsLast]
    | some y =>
      simp only [optIntLeNullsLast, decide_eq_true_eq]
      exact Int.le_total x y

theorem colLeAsc_total (col : Str) (a b : Content) :
    colLeAsc col a b = true ∨ colLeAsc col b a = true := by
  rw [colLeAsc, colLeAsc]
  split_ifs
  · rcases Int.le_total a.id b.id with h | h
    · left; exact decide_eq_true h
    · right; exact decide_eq_true h
  · exact strLe_total a.title b.title
  · rcases Int.le_total a.createdAt b.createdAt with h | h
    · left; exact decide_eq_true h
    · right; exact decide_eq_true h
  · rcases Int.le_total a.updatedAt b.updatedAt with h | h
    · left; exact decide_eq_true h
    · right; exact decide_eq_true h
  · exact optIntLeNullsLast_total a.modifiedAt b.modifiedAt

theorem contentLe_total (col dir : Str) (a b : Content) :
    contentLe col dir a b = true ∨ contentLe col dir b a = true := by
  rw [contentLe, contentLe]
  split_ifs
  · rcases colLeAsc_total col b a with h | h
    · left; exact h
    · right; exact h
  · exact colLeAsc_total col a b

theorem chainLe_tail (le : Content → Content → Bool) (x : Content)
    (l : List Content) (h : chainLe le (x :: l) = true) : chainLe le l = true := by
  cases l with
  | nil => rfl
  | cons y ys =>
    rw [chainLe] at h
    exact (bool_and_split h).2

theorem chainLe_insertLe (le : Content → Content → Bool)
    (htot : ∀ a b, le a b = true ∨ le b a = true) :
    ∀ (l : List Content) (x : Content), chainLe le l = true →
      chainLe le (insertLe le x l) = true := by
  intro l
  induction l with
  | nil => intro x _; rfl
  | cons y rest ih =>
    intro x h
    rw [insertLe]
    by_cases hxy : le x y = true
    · rw [if_pos hxy]
      rw [chainLe, hxy, h]
      rfl
    · rw [if_neg hxy]
      have hyx : le y x = true := by
        rcases htot x y with h' | h'
        · exact absurd h' hxy
        · exact h'
      cases rest with
      | nil =>
        rw [insertLe]
        simp [chainLe, hyx]
      | cons z zs =>
        rw [chainLe] at h
        have hz : le y z = true := (bool_and_split h).1
        have hchz : chainLe le (z :: zs) = true := (bool_and_split h).2
        rw [insertLe]
        by_cases hxz : le x z = true
        · rw [if_pos hxz]
          rw [chainLe, hyx]
          rw [chainLe, hxz, hchz]
          rfl
        · rw [if_neg hxz]
          have hih := ih x hchz
          rw [insertLe, if_neg hxz] at hih
          rw [chainLe, hz, hih]
          rfl

theorem chainLe_sortByLe (le : Content → Content → Bool)
    (htot : ∀ a b, le a b = true ∨ le b a = true) :
    ∀ l : List Content, chainLe le (sortByLe le l) = true := by
  intro l
  induction l with
  | nil => rfl
  | cons x rest ih =>
    rw [sortByLe]
    exact chainLe_insertLe le htot _ x ih

theorem chainLe_take (le : Content → Content → Bool) :
    ∀ (l : List Content) (n : Nat), chainLe le l = true →
      chainLe le (l.take n) = true := by
  intro l
  induction l with
  | nil => intro n _; rw [List.take_nil]; rfl
  | cons x xs ih =>
    intro n h
    cases n with
    | zero => rfl
    | succ m =>
      rw [List.take_succ_cons]
      cases xs with
      | nil => rw [List.take_nil]; rfl
      | cons y ys =>
        rw [chainLe] at h
        have h1 : le x y = true := (bool_and_split h).1
        have h2 : chainLe le (y :: ys) = true := (bool_and_split h).2
        cases m with
        | zero => rfl
        | succ m2 =>
          have hih := ih (m2 + 1) h2
          rw [List.take_succ_cons] at hih ⊢
          rw [chainLe, h1, hih]
          rfl

theorem chainLe_drop (le : Content → Content → Bool) :
    ∀ (l : List Content) (n : Nat), chainLe le l = true →
      chainLe le (l.drop n) = true := by
  intro l
  induction l with
  | nil => intro n _; rw [List.drop_nil]; rfl
  | cons x xs ih =>
    intro n h
    cases n with
    | zero => exact h
    | succ m =>
      rw [List.drop_succ_cons]
      exact ih m (chainLe_tail le x xs h)

theorem mem_insertLe (le : Content → Content → Bool) :
    ∀ (l : List Content) (x a : Content), a ∈ insertLe le x l →
      a = x ∨ a ∈ l := by
  intro l
  induction l with
  | nil =>
    intro x a ha
    rw [insertLe] at ha
    left
    exact List.mem_singleton.mp ha
  | cons y rest ih =>
    intro x a ha
    rw [insertLe] at ha
    by_cases hxy : le x y = true
    · rw [if_pos hxy] at ha
      rcases List.mem_cons.mp ha with h | h
      · left; exact h
      · right; exact h
    · rw [if_neg hxy] at ha
      rcases List.mem_cons.mp ha with h | h
      · right; rw [h]; exact List.mem_cons_self y rest
      · rcases ih x a h with h' | h'
        · left; exact h'
        · right; exact List.mem_cons_of_mem y h'

theorem mem_sortByLe (le : Content → Content → Bool) :
    ∀ (l : List Content) (a : Content), a ∈ sortByLe le l → a ∈ l := by
  intro l
  induction l with
  | nil => intro a ha; exact absurd ha (List.not_mem_nil a)
  | cons x rest ih =>
    intro a ha
    rw [sortByLe] at ha
    rcases mem_insertLe le _ x a ha with h | h
    · rw [h]; exact List.mem_cons_self x rest
    · exact List.mem_cons_of_mem x (ih a h)

/-- C8 counterexample: "id" is in the claim's whitelist, and ascending order
by id over `listDemoDb` would put content 1 first; the code's whitelist keys
carry the `c.` prefix, so "id" is unrecognized and the rows come back ordered
by `created_at` instead: content 2 (created first) leads. -/
theorem c8_counterexample :
    (listContent listDemoDb 20 0 (str "id") (str "ASC") []).map
      (fun c => c.id) = [2, 1] := by decide

/-- C8 (amended): `ListContent` results are always ordered by the resolved
sort column in the resolved direction; the whitelist keys are `c.id`,
`c.title`, `c.created_at`, `c.updated_at`, `c.modified_at` (with the `c.`
prefix) and any other key falls back to `c.created_at` without an error,
while the direction is resolved independently (upper-cased, defaulting to
DESC when not ASC/DESC); the tag filter keeps exactly the contents bearing at
least one of the given tag names. -/
theorem c8_list_content_sort_and_filter (db : PrimaryDb) (limit offset : Int)
    (sortBy sortOrder : Str) (filterTags : List Str) :
    chainLe (contentLe (resolveSortBy sortBy) (resolveSortOrder sortOrder))
      (listContent db limit offset sortBy sortOrder filterTags) = true ∧
    (sortWhitelist.contains sortBy = true → resolveSortBy sortBy = sortBy) ∧
    (sortWhitelist.contains sortBy = false →
      resolveSortBy sortBy = str "c.created_at") ∧
    (toUpperL sortOrder = str "ASC" ∨ toUpperL sortOrder = str "DESC" →
      resolveSortOrder sortOrder = toUpperL sortOrder) ∧
    (¬(toUpperL sortOrder = str "ASC" ∨ toUpperL sortOrder = str "DESC") →
      resolveSortOrder sortOrder = str "DESC") ∧
    (∀ c ∈ listContent db limit offset sortBy sortOrder filterTags,
      c ∈ db.contents ∧
        (filterTags ≠ [] → matchesTagFilter db filterTags c = true)) := by
  refine ⟨?_, ?_, ?_, ?_, ?_, ?_⟩
  · rw [listContent]
    exact chainLe_take _ _ _ (chainLe_drop _ _ _
      (chainLe_sortByLe _ (contentLe_total _ _) _))
  · intro h
    rw [resolveSortBy, if_pos h]
  · intro h
    rw [resolveSortBy, h]
    rfl
  · intro h
    rcases h with h | h
    · rw [resolveSortOrder, h, if_pos (by decide)]
    · rw [resolveSortOrder, h, if_pos (by decide)]
  · intro h
    rw [resolveSortOrder, if_neg (by
      intro hc
      simp only [Bool.or_eq_true, decide_eq_true_eq] at hc
      exact h hc)]
  · intro c hc
    rw [listContent] at hc
    have hsorted := (List.take_subset _ _) hc
    have hsorted2 := (List.drop_subset _ _) hsorted
    have hfiltered := mem_sortByLe _ _ c hsorted2
    by_cases hft : filterTags.isEmpty = true
    · rw [if_pos hft] at hfiltered
      refine ⟨hfiltered, fun hne => absurd (List.isEmpty_iff.mp hft) hne⟩
    · rw [if_neg hft] at hfiltered
      have := List.mem_filter.mp hfiltered
      exact ⟨this.1, fun _ => this.2⟩

/-- C8 witness: the whitelisted key `c.id` ascending over `listDemoDb` comes
back in id order. -/
theorem c8_list_content_sort_and_filter_witness :
    chainLe (contentLe (resolveSortBy (str "c.id")) (resolveSortOrder (str "ASC")))
      (listContent listDemoDb 20 0 (str "c.id") (str "ASC") []) = true ∧
    resolveSortBy (str "c.id") = str "c.id" :=
  ⟨(c8_list_content_sort_and_filter listDemoDb 20 0 (str "c.id") (str "ASC") []).1,
    (c8_list_content_sort_and_filter listDemoDb 20 0 (str "c.id")
      (str "ASC") []).2.1 (by decide)⟩

end Mimir
